import Mathlib

/-!
Shallow embedding of the log-scanning / time-segmented report engine of
`log_hightlight.py` (class `ScanWorker` and its helper functions), together
with theorems checking the specification's claims about it.

Modelling conventions:
* Python `str` values are Lean `String`s; character-level work happens on
  `String.data : List Char`.
* The combined regular expression built by `Keyword.to_group` and
  `re.compile("|".join(parts))` is embedded semantically for literal
  (non-`use_regex`) keywords: an escaped literal sub-pattern matches exactly
  its raw text, `(?i:...)` compares after lower-casing, and the
  `(?<!\w)...(?!\w)` wrapper adds word-boundary side conditions.  Raw-regex
  keywords are outside the model (their `matchLen` is `none`); theorems that
  quantify over keyword sets therefore restrict to `use_regex = false`.
* Python's `\w` is modelled as ASCII alphanumeric or underscore.
* File I/O is modelled by the data the code actually consumes: a file is the
  list of chunk strings `f.read(chunk_size)` returns per decode attempt,
  plus a flag saying whether the attempt reached EOF or raised
  `UnicodeDecodeError` mid-stream.
* `datetime` values (always in the current calendar year) are microsecond
  counts since Jan 1 00:00:00.000000 of that year; the year only enters
  through its leap-day, carried as a `leap : Bool` parameter.
-/

/-- Python `\w` (ASCII fragment): letters, digits, underscore. -/
def isWordChar (c : Char) : Bool :=
  c.isAlphanum || c = '_'

/-- Numeric value of a decimal digit character. -/
def dval (c : Char) : Nat :=
  c.toNat - 48

/-- Embeds the `Keyword` class (source lines 99-106): raw pattern text,
annotation (`ann` here), the three match flags and the display color. -/
structure Keyword where
  raw : String
  ann : String
  match_case : Bool
  whole_word : Bool
  use_regex : Bool
  color : String
deriving DecidableEq, Repr

/-- Semantic embedding of the compiled group `Keyword.to_group` produces
(source lines 108-124) for a literal keyword: the group matches at position
`i` of `s` iff its raw text occurs there (lower-cased comparison when
`match_case` is false), subject to the `(?<!\w)`/`(?!\w)` word boundaries
when `whole_word` is set.  Returns the match length.  Raw-regex keywords are
outside the model and never match here. -/
def matchLen (kw : Keyword) (s : List Char) (i : Nat) : Option Nat :=
  if kw.use_regex then none else
  let t := kw.raw.data
  let seg := (s.drop i).take t.length
  let lenOk : Bool := decide (i + t.length ≤ s.length)
  let eqOk : Bool :=
    if kw.match_case then decide (seg = t)
    else decide (seg.map Char.toLower = t.map Char.toLower)
  let beforeOk : Bool :=
    match i with
    | 0 => true
    | j + 1 => !isWordChar (s.getD j ' ')
  let afterOk : Bool :=
    decide (s.length ≤ i + t.length) || !isWordChar (s.getD (i + t.length) ' ')
  let wordOk : Bool := !kw.whole_word || (beforeOk && afterOk)
  if lenOk && eqOk && wordOk then some t.length else none

/-- Alternation at one position: Python's `re` tries the `|`-joined keyword
groups in order and the first that matches wins; returns the keyword index
and the end position of the match. -/
def firstMatchAt (kws : List Keyword) (s : List Char) (i : Nat) : Option (Nat × Nat) :=
  kws.enum.findSome? fun p =>
    (matchLen p.2 s i).map fun l => (p.1, i + l)

/-- Leftmost match at or after position `i`, as `re.search` / the scanning
step of `re.finditer` perform it: positions are tried left to right.
Returns (start, keyword index, end). -/
def searchFrom (kws : List Keyword) (s : List Char) (i : Nat) : Option (Nat × Nat × Nat) :=
  (List.range' i (s.length + 1 - i)).findSome? fun p =>
    (firstMatchAt kws s p).map fun q => (p, q.1, q.2)

/-- The successive non-overlapping matches `re.finditer` yields (used by
`highlight_line`, source line 139): after a match ending at `e` the scan
resumes at `e`, advancing one position past a zero-width match. -/
def finditerAux (kws : List Keyword) (s : List Char) : Nat → Nat → List (Nat × Nat × Nat)
  | 0, _ => []
  | fuel + 1, i =>
    match searchFrom kws s i with
    | none => []
    | some (p, k, e) => (p, k, e) :: finditerAux kws s fuel (max e (p + 1))

/-- All match spans of the combined pattern over a line, in order. -/
def finditerSpans (kws : List Keyword) (s : List Char) : List (Nat × Nat × Nat) :=
  finditerAux kws s (s.length + 1) 0

/-- Python `html.escape` (with its default `quote=True`); code point 39 is
the single-quote character. -/
def htmlEscapeChar (c : Char) : String :=
  if c = '&' then "&amp;"
  else if c = '<' then "&lt;"
  else if c = '>' then "&gt;"
  else if c = '"' then "&quot;"
  else if c = Char.ofNat 39 then "&#x27;"
  else String.mk [c]

/-- Escape every character of a string. -/
def htmlEscape (s : String) : String :=
  String.join (s.data.map htmlEscapeChar)

/-- The slice `raw_line[a:b]` of a character list. -/
def substrRange (cs : List Char) (a b : Nat) : String :=
  String.mk ((cs.drop a).take (b - a))

/-- The single-quote character (code point 39) used inside the rendered
style attributes. -/
def sQuote : String :=
  String.mk [Char.ofNat 39]

/-- One highlighted span plus its gray annotation span, exactly as
`highlight_line` renders them (source lines 146-147). -/
def spanFor (kw : Keyword) (seg : String) : String :=
  "<span style=" ++ sQuote ++ "background:" ++ kw.color ++ sQuote ++ ">" ++ htmlEscape seg ++
    "</span><span style=" ++ sQuote ++ "color:gray" ++ sQuote ++ "> (" ++ htmlEscape kw.ann ++ ")</span>"

/-- The rendering loop of `highlight_line` (source lines 138-150): escaped
literal text between spans, each span rendered with its keyword's color and
annotation, and the escaped tail. -/
def renderFrom (cs : List Char) (kws : List Keyword) : List (Nat × Nat × Nat) → Nat → String
  | [], last => htmlEscape (substrRange cs last cs.length)
  | (p, k, e) :: rest, last =>
    htmlEscape (substrRange cs last p) ++
      spanFor (kws.getD k ⟨"", "", false, false, false, ""⟩) (substrRange cs p e) ++
      renderFrom cs kws rest e

/-- Embeds `highlight_line` (source lines 126-150). -/
def highlight_line (raw_line : String) (kws : List Keyword) : String :=
  renderFrom raw_line.data kws (finditerSpans kws raw_line.data) 0

/-- Boolean prefix test on character lists. -/
def listPrefixEq : List Char → List Char → Bool
  | [], _ => true
  | _ :: _, [] => false
  | c :: r, d :: t => c = d && listPrefixEq r t

/-- Python's `sub in line` substring containment test (case-sensitive, as
the source performs it at line 407). -/
def containsSub (sub : List Char) (l : List Char) : Bool :=
  (List.range (l.length + 1)).any fun i => listPrefixEq sub (l.drop i)

/-- Python `line.rstrip('\n')`. -/
def pyRstripNl (cs : List Char) : List Char :=
  (cs.reverse.dropWhile fun c => c = '\n').reverse

/-- Embeds `ScanWorker.process_line` (source lines 393-415) in the
non-cancelled case: strip trailing newlines, apply the fast-reject check
(`any(sub in line for sub in self.raw_list)` — a case-sensitive raw
substring test), truncate to 2000 characters, run the combined pattern, and
on a match append `(line[:18], highlight_line(...))` to `out`.  The
`raw_list` is the one built at source line 1105: each keyword's raw text. -/
def process_line (kws : List Keyword) (line : String) (out : List (String × String)) :
    List (String × String) :=
  let cs := pyRstripNl line.data
  let raw_list := kws.map fun kw => kw.raw
  if !(raw_list.any fun sub => containsSub sub.data cs) then out
  else
    let cs := if 2000 < cs.length then cs.take 2000 else cs
    if (searchFrom kws cs 0).isSome then
      let ts := if 18 ≤ cs.length then cs.take 18 else cs
      out ++ [(String.mk ts, highlight_line (String.mk cs) kws)]
    else out

/-- Helper for `pySplitlines`: accumulates the current line (reversed). -/
def splitlinesAux : List Char → List Char → List (List Char)
  | [], acc => [acc.reverse]
  | c :: rest, acc =>
    if c = '\n' then
      acc.reverse :: (if rest.isEmpty then [] else splitlinesAux rest [])
    else splitlinesAux rest (c :: acc)

/-- Python `str.splitlines()` restricted to the newline terminator (the file
is opened in text mode, so universal-newline translation has already turned
other terminators into this one): splits on each newline and produces no
entry for a trailing newline. -/
def pySplitlines (cs : List Char) : List (List Char) :=
  if cs.isEmpty then [] else splitlinesAux cs []

/-- Structural helper for `chunksOf`; the fuel is the character count, and
each step consumes at least one character when `n` is positive. -/
def chunksOfAux (n : Nat) : Nat → List Char → List (List Char)
  | 0, _ => []
  | fuel + 1, cs =>
    if cs.isEmpty || n = 0 then []
    else cs.take n :: chunksOfAux n fuel (cs.drop n)

/-- The successive values of `f.read(chunk_size)` on a decoded text of
`cs`: maximal runs of `n` characters.  `n = 0` never occurs in the tool
(the UI enforces a minimum chunk size) and yields no chunks here. -/
def chunksOf (n : Nat) (cs : List Char) : List (List Char) :=
  chunksOfAux n cs.length cs

/-- The sequence of complete lines the chunked reader of `scan_file`
(source lines 246-261) feeds to `process_line`: per chunk, the buffer plus
the chunk is split and all pieces but the last are processed, the last
piece becoming the new buffer; at EOF the remaining buffer is split and
processed in full when the attempt completed (`ok`), and not at all when the
read raised `UnicodeDecodeError` (`ok = false`, the exception skips the
EOF branch). -/
def chunkLinesWith (ok : Bool) : List (List Char) → List Char → List (List Char)
  | [], buffer =>
    if ok then (if buffer.isEmpty then [] else pySplitlines buffer) else []
  | c :: rest, buffer =>
    let buf := buffer ++ c
    let lines := pySplitlines buf
    lines.dropLast ++ chunkLinesWith ok rest (lines.getLastD [])

/-- The complete-line sequence obtained by reading `content` in chunks of
`n` characters, exactly as the source's reader produces it. -/
def readLines (n : Nat) (content : String) : List String :=
  (chunkLinesWith true (chunksOf n content.data) []).map String.mk

/-- A file as one decode attempt sees it: the chunk strings the reads
return, and whether the attempt reached EOF (`ok = true`) or raised
`UnicodeDecodeError` part-way (`ok = false`, after the listed chunks were
already delivered). -/
structure DecodeAttempt where
  chunks : List String
  ok : Bool
deriving DecidableEq, Repr

/-- A file as `scan_file` consumes it: the decode attempts for the ordered
encoding list `['utf-8', 'gbk', 'gb2312']`, and whether the size check at
source lines 237-240 rejects it.  The on-disk byte level is not modelled;
each attempt's chunk data stands for what decoding under that encoding
yields. -/
structure FileModel where
  attempts : List DecodeAttempt
  oversize : Bool
deriving DecidableEq, Repr

/-- The encodings loop of `scan_file` (source lines 242-264): each attempt
processes its delivered lines into the same `out` list (which the source
never resets between attempts); a completed attempt breaks the loop, a
`UnicodeDecodeError` falls through to the next encoding with `out` kept. -/
def scanAttempts (kws : List Keyword) : List DecodeAttempt → List (String × String) →
    List (String × String)
  | [], out => out
  | a :: rest, out =>
    let lines := chunkLinesWith a.ok (a.chunks.map String.data) []
    let out' := lines.foldl (fun o l => process_line kws (String.mk l) o) out
    if a.ok then out' else scanAttempts kws rest out'

/-- Embeds `scan_file` (source lines 232-270): oversize files are skipped
with zero records, otherwise the encodings loop runs. -/
def scan_file (kws : List Keyword) (fm : FileModel) : List (String × String) :=
  if fm.oversize then [] else scanAttempts kws fm.attempts []

/-- The `%m` field of CPython strptime, regex `(1[0-2]|0[1-9]|[1-9])` with
its alternatives tried in order; committing to a two-digit match is safe
because the following literal is never a digit. -/
def parseMonth : List Char → Option (Nat × List Char)
  | a :: b :: rest =>
    if a = '1' && '0' ≤ b && b ≤ '2' then some (10 + dval b, rest)
    else if a = '0' && '1' ≤ b && b ≤ '9' then some (dval b, rest)
    else if '1' ≤ a && a ≤ '9' then some (dval a, b :: rest)
    else none
  | [a] => if '1' ≤ a && a ≤ '9' then some (dval a, []) else none
  | [] => none

/-- The `%d` field, regex `(3[01]|[12]\d|0[1-9]|[1-9])`. -/
def parseDay : List Char → Option (Nat × List Char)
  | a :: b :: rest =>
    if a = '3' && (b = '0' || b = '1') then some (30 + dval b, rest)
    else if (a = '1' || a = '2') && b.isDigit then some (10 * dval a + dval b, rest)
    else if a = '0' && '1' ≤ b && b ≤ '9' then some (dval b, rest)
    else if '1' ≤ a && a ≤ '9' then some (dval a, b :: rest)
    else none
  | [a] => if '1' ≤ a && a ≤ '9' then some (dval a, []) else none
  | [] => none

/-- The `%H` field, regex `(2[0-3]|[0-1]\d|\d)`. -/
def parseHour : List Char → Option (Nat × List Char)
  | a :: b :: rest =>
    if a = '2' && '0' ≤ b && b ≤ '3' then some (20 + dval b, rest)
    else if (a = '0' || a = '1') && b.isDigit then some (10 * dval a + dval b, rest)
    else if a.isDigit then some (dval a, b :: rest)
    else none
  | [a] => if a.isDigit then some (dval a, []) else none
  | [] => none

/-- The `%M` field, regex `([0-5]\d|\d)`. -/
def parseMinute : List Char → Option (Nat × List Char)
  | a :: b :: rest =>
    if '0' ≤ a && a ≤ '5' && b.isDigit then some (10 * dval a + dval b, rest)
    else if a.isDigit then some (dval a, b :: rest)
    else none
  | [a] => if a.isDigit then some (dval a, []) else none
  | [] => none

/-- The `%S` field, regex `(6[01]|[0-5]\d|\d)`; values 60 and 61 pass the
regex but make the `datetime` constructor raise, handled in `strptime18`. -/
def parseSecond : List Char → Option (Nat × List Char)
  | a :: b :: rest =>
    if a = '6' && (b = '0' || b = '1') then some (60 + dval b, rest)
    else if '0' ≤ a && a ≤ '5' && b.isDigit then some (10 * dval a + dval b, rest)
    else if a.isDigit then some (dval a, b :: rest)
    else none
  | [a] => if a.isDigit then some (dval a, []) else none
  | [] => none

/-- A literal character of the format. -/
def parseLit (c : Char) : List Char → Option (List Char)
  | d :: rest => if d = c then some rest else none
  | [] => none

/-- A literal whitespace in the format matches one or more whitespace
characters. -/
def parseWs1 : List Char → Option (List Char)
  | c :: rest =>
    if c.isWhitespace then some (rest.dropWhile Char.isWhitespace) else none
  | [] => none

/-- Decimal value of a digit list. -/
def natOfDigits (ds : List Char) : Nat :=
  ds.foldl (fun acc c => 10 * acc + dval c) 0

/-- The `%f` field: one to six digits, right-padded with zeros to a
microsecond count. -/
def parseFrac (cs : List Char) : Option (Nat × List Char) :=
  let ds := (cs.takeWhile Char.isDigit).take 6
  if ds.isEmpty then none
  else some (natOfDigits ds * 10 ^ (6 - ds.length), cs.drop ds.length)

/-- Days in each month of the current year; `leap` is whether that year is
a leap year (it only moves February). -/
def daysInMonth (leap : Bool) (m : Nat) : Nat :=
  [31, if leap then 29 else 28, 31, 30, 31, 30, 31, 31, 30, 31, 30, 31].getD (m - 1) 0

/-- Days of the current year before month `m` begins. -/
def daysBefore (leap : Bool) (m : Nat) : Nat :=
  ((List.range (m - 1)).map fun i => daysInMonth leap (i + 1)).sum

/-- Microseconds since Jan 1 00:00:00.000000 of the current year. -/
def toMicros (leap : Bool) (m d h mi s f : Nat) : Nat :=
  ((((daysBefore leap m + (d - 1)) * 24 + h) * 60 + mi) * 60 + s) * 1000000 + f

/-- Embeds `datetime.strptime(f"{year}-{ts}", "%Y-%m-%d %H:%M:%S.%f")` on
the 18-character prefix `ts` (the year and its dash are prepended
programmatically and always match): the whole prefix must be consumed, and
the resulting field values must form a valid datetime — seconds above 59
and days beyond the month's length make the constructor raise. -/
def strptime18 (leap : Bool) (cs : List Char) : Option Nat := do
  let (m, r1) ← parseMonth cs
  let r2 ← parseLit '-' r1
  let (d, r3) ← parseDay r2
  let r4 ← parseWs1 r3
  let (h, r5) ← parseHour r4
  let r6 ← parseLit ':' r5
  let (mi, r7) ← parseMinute r6
  let r8 ← parseLit ':' r7
  let (s, r9) ← parseSecond r8
  let r10 ← parseLit '.' r9
  let (f, r11) ← parseFrac r10
  if r11.isEmpty && s ≤ 59 && d ≤ daysInMonth leap m then
    some (toMicros leap m d h mi s f)
  else none

/-- Embeds `parse_timestamp` (source lines 152-170): the first 18
characters are interpreted under the format above; shorter lines or a
failing parse yield the sentinel (`datetime.min`), modelled as `none`. -/
def parse_timestamp (leap : Bool) (line : String) : Option Nat :=
  if 18 ≤ line.length then strptime18 leap (line.data.take 18) else none

/-- Sort-key image of a parsed timestamp: the sentinel `datetime.min` (year
1) precedes every current-year value, so mapping it to 0 and a parsed value
to its successor preserves the `datetime` order the sort uses. -/
def sortKey : Option Nat → Nat
  | none => 0
  | some t => t + 1

/-- The key `parse_timestamp(x[0])` that `all_results.sort` uses (source
line 332). -/
def rkey (leap : Bool) (r : String × String) : Nat :=
  sortKey (parse_timestamp leap r.1)

/-- The sort order on records. -/
def recLE (leap : Bool) (a b : String × String) : Prop :=
  rkey leap a ≤ rkey leap b

instance (leap : Bool) : DecidableRel (recLE leap) :=
  fun a b => Nat.decLe (rkey leap a) (rkey leap b)

/-- The configuration values `ScanWorker` reads out of `config_params` and
`CONFIG_DEFAULTS` (source lines 188-192). -/
structure ScanConfig where
  max_results : Nat
  time_range_hours : Nat
  max_output_files : Nat
  chunk_size : Nat
deriving DecidableEq, Repr

/-- Microseconds in one hour. -/
def hourMicro : Nat :=
  3600000000

/-- `timestamp.replace(minute=0, second=0, microsecond=0)` (source line
353): truncation to the top of the hour. -/
def truncHour (t : Nat) : Nat :=
  t - t % hourMicro

/-- A finalized output file: its window bounds and, in written order, the
records it contains.  The real artifact holds only each record's rendered
line; the timestamp prefix is carried alongside it here so that theorems
can speak about the records a window received. -/
structure Artifact where
  segStart : Nat
  segEnd : Nat
  lines : List (String × String)
deriving DecidableEq, Repr

/-- The warning events the aggregation phase can emit: the in-loop
truncation warning (source line 338), the output-file-cap warning (source
line 350), and the post-loop truncation warning (source line 377). -/
inductive Event where
  | warnTruncate : Event
  | warnCap : Event
  | warnTruncateFinal : Event
deriving DecidableEq, Repr

/-- Whether an event is a truncation warning. -/
def isTruncWarn : Event → Bool
  | Event.warnTruncate => true
  | Event.warnTruncateFinal => true
  | Event.warnCap => false

/-- Environment of one `close_temp_file` call: whether the temporary file
still exists on disk, and whether writing the final HTML file raises.  The
normal case is `⟨true, false⟩`. -/
structure CloseB where
  tempExists : Bool
  writeRaises : Bool
deriving DecidableEq, Repr

/-- Pops the next close behavior off the environment; once the environment
list is exhausted every further close behaves normally. -/
def popEnv : List CloseB → CloseB × List CloseB
  | [] => (⟨true, false⟩, [])
  | b :: rest => (b, rest)

/-- Embeds `close_temp_file` (source lines 285-306): closing the temporary
handle only logs on failure; when the temporary file is missing the
function returns `None` (the artifact is silently dropped); the final
`open`/`write` is not guarded, so a write failure raises out of the
function — modelled as `Except.error`. -/
def close_temp_file (b : CloseB) (s e : Nat) (buf : List (String × String)) :
    Except Unit (Option Artifact) :=
  if b.tempExists then
    if b.writeRaises then Except.error ()
    else Except.ok (some ⟨s, e, buf⟩)
  else Except.ok none

/-- The mutable state of the aggregation loop (source lines 224-230 plus
`_result_truncated`): written-record counter, truncation flag, the open
segment (window start, window end, buffered records), the finalized
artifacts, the emitted warnings, and the remaining close environment. -/
structure AggSt where
  entry_count : Nat
  truncated : Bool
  seg : Option (Nat × Nat × List (String × String))
  outputs : List Artifact
  events : List Event
  env : List CloseB
deriving DecidableEq, Repr

/-- Fresh aggregation state. -/
def initSt (env : List CloseB) : AggSt :=
  ⟨0, false, none, [], [], env⟩

/-- `get_temp_file_for_segment` at a record time `t` (source lines
352-356), guarded by the output-file cap: anchor the window at the top of
`t`'s hour, window end one `time_range_hours` later. -/
def openSeg (cfg : ScanConfig) (t : Nat) (st : AggSt) : AggSt :=
  if st.outputs.length < cfg.max_output_files then
    { st with seg := some (truncHour t, truncHour t + cfg.time_range_hours * hourMicro, []) }
  else st

/-- The guarded write `current_temp_out.write(hl + '<br>')` (source lines
357-358); when no segment is open nothing is written (that guard
combination cannot occur in a run, see `openSeg`). -/
def writeStep (cfg : ScanConfig) (ts hl : String) (st : AggSt) : AggSt :=
  if st.outputs.length < cfg.max_output_files then
    { st with seg :=
        match st.seg with
        | some (s, e, buf) => some (s, e, buf ++ [(ts, hl)])
        | none => none }
  else st

/-- The segment-boundary block of the loop (source lines 343-356) for a
record time `t`: close the open segment when `t` has reached its window
end, append the resulting artifact, break with the one-time cap warning
when the artifact count reaches the cap, else open a new window anchored at
`t`.  Returns the new state and whether the loop breaks. -/
def segBoundary (cfg : ScanConfig) (t : Nat) (st : AggSt) : Except Unit (AggSt × Bool) :=
  match st.seg with
  | none => Except.ok (openSeg cfg t st, false)
  | some (s0, e0, buf) =>
    if t < e0 then Except.ok (st, false)
    else
      match close_temp_file (popEnv st.env).1 s0 e0 buf with
      | Except.error e => Except.error e
      | Except.ok none =>
        Except.ok (openSeg cfg t { st with env := (popEnv st.env).2, seg := none }, false)
      | Except.ok (some a) =>
        if cfg.max_output_files ≤ (st.outputs ++ [a]).length then
          Except.ok ({ st with
                       env := (popEnv st.env).2, seg := none,
                       outputs := st.outputs ++ [a],
                       events := st.events ++ [Event.warnCap] }, true)
        else
          Except.ok (openSeg cfg t { st with
                                     env := (popEnv st.env).2, seg := none,
                                     outputs := st.outputs ++ [a] }, false)

/-- The record loop of `ScanWorker.run` (source lines 334-359) over the
sorted record list: the truncation check (break with a warning when the
written count has reached `max_results`), the sentinel skip, the segment
boundary block, the guarded write, and the counter increment.  An
unhandled exception from a close propagates as `Except.error`, reaching
the outer handler at source line 390. -/
def aggLoop (cfg : ScanConfig) (leap : Bool) :
    List (String × String) → AggSt → Except Unit AggSt
  | [], st => Except.ok st
  | (ts, hl) :: rest, st =>
    if cfg.max_results ≤ st.entry_count && !st.truncated then
      Except.ok { st with truncated := true, events := st.events ++ [Event.warnTruncate] }
    else
      match parse_timestamp leap ts with
      | none => aggLoop cfg leap rest st
      | some t =>
        match segBoundary cfg t st with
        | Except.error e => Except.error e
        | Except.ok (st', true) => Except.ok st'
        | Except.ok (st', false) =>
          let st'' := writeStep cfg ts hl st'
          aggLoop cfg leap rest { st'' with entry_count := st''.entry_count + 1 }

/-- The result of a completed (non-aborted) run: the finalized artifacts in
order and the emitted warnings. -/
structure RunResult where
  outputs : List Artifact
  events : List Event
deriving DecidableEq, Repr

/-- The post-loop epilogue of `ScanWorker.run` (source lines 361-377):
close the still-open segment — its artifact is appended without a cap
check — and re-emit the truncation warning when the truncated flag is set. -/
def finishRun (st : AggSt) : Except Unit RunResult :=
  match st.seg with
  | none => Except.ok ⟨st.outputs, st.events ++ if st.truncated then [Event.warnTruncateFinal] else []⟩
  | some (s, e, buf) =>
    match close_temp_file (popEnv st.env).1 s e buf with
    | Except.error er => Except.error er
    | Except.ok none =>
      Except.ok ⟨st.outputs, st.events ++ if st.truncated then [Event.warnTruncateFinal] else []⟩
    | Except.ok (some a) =>
      Except.ok ⟨st.outputs ++ [a],
        st.events ++ if st.truncated then [Event.warnTruncateFinal] else []⟩

/-- The aggregation phase of `ScanWorker.run` (source lines 330-377) on the
collected records: the stable sort by parsed timestamp (Python's `sort` is
stable; `List.insertionSort` is the stable sort with the same
sorted-output-is-unique behavior) followed by the record loop and the
epilogue. -/
def runScan (cfg : ScanConfig) (leap : Bool) (env : List CloseB)
    (records : List (String × String)) : Except Unit RunResult :=
  match aggLoop cfg leap (List.insertionSort (recLE leap) records) (initSt env) with
  | Except.error e => Except.error e
  | Except.ok st => finishRun st

/-- The whole job (source lines 308-377): scan every file — the list is
given in task-completion order, in which `all_results.extend` collects the
batches — then aggregate. -/
def runJob (cfg : ScanConfig) (leap : Bool) (env : List CloseB)
    (kws : List Keyword) (files : List FileModel) : Except Unit RunResult :=
  runScan cfg leap env ((files.map fun fm => scan_file kws fm).flatten)

/-- Total number of records written across all artifacts of a result. -/
def writtenCount (res : RunResult) : Nat :=
  (res.outputs.map fun a => a.lines.length).sum

/-- Number of truncation warnings a result carries. -/
def truncWarnCount (res : RunResult) : Nat :=
  res.events.countP isTruncWarn

/-- Extracts the result of a completed run; `none` when the run aborted
through the outer exception handler. -/
def okOf : Except Unit RunResult → Option RunResult
  | Except.ok r => some r
  | Except.error _ => none

/-- Modelled from the spec: the merging of "overlapping/adjacent match
spans ... into disjoint highlighted regions" (spec §4.3) that the claim
attributes to the renderer — two spans that touch or overlap become one
contiguous region.  Stated over (start, end) pairs, used only to compare
the claimed behavior with what `highlight_line` actually renders. -/
def mergeRegions : List (Nat × Nat) → List (Nat × Nat)
  | [] => []
  | (s, e) :: rest =>
    match mergeRegions rest with
    | [] => [(s, e)]
    | (s2, e2) :: tail =>
      if s2 ≤ e then (s, max e e2) :: tail else (s, e) :: (s2, e2) :: tail

/-- A case-insensitive literal keyword `boom`, as Scenario A configures it. -/
def kwBoom : Keyword :=
  ⟨"boom", "keyword", false, false, false, "#ffff99"⟩

/-- A case-sensitive literal keyword `ab`. -/
def kwAb : Keyword :=
  ⟨"ab", "z", true, false, false, "#c"⟩

/-- The tool's default limits (`CONFIG_DEFAULTS`): max_results 10000, one
hour per window, at most 100 output files, 1 MiB chunks. -/
def cfgA : ScanConfig :=
  ⟨10000, 1, 100, 1048576⟩

/-- `cfgA` with `max_results = 1` (Scenario B). -/
def cfgB : ScanConfig :=
  ⟨1, 1, 100, 1048576⟩

/-- Scenario A file F1: one line, timestamp `01-02 10:15:00.000`. -/
def fileA1 : FileModel :=
  ⟨[⟨["01-02 10:15:00.000 ERROR boom"], true⟩], false⟩

/-- Scenario A file F2: one line, timestamp `01-02 10:15:00.001`. -/
def fileA2 : FileModel :=
  ⟨[⟨["01-02 10:15:00.001 INFO boom"], true⟩], false⟩

/-- Records with equal timestamps originating from two different files. -/
def rX : String × String :=
  ("01-02 10:15:00.000", "A")

/-- Second record with the same timestamp as `rX`. -/
def rY : String × String :=
  ("01-02 10:15:00.000", "B")

/-- A record in the 10:00 hour. -/
def rP : String × String :=
  ("01-02 10:15:00.000", "A")

/-- A record two hours later, forcing a segment close before it. -/
def rQ : String × String :=
  ("01-02 12:30:00.000", "B")

/-- A file whose first decode attempt delivers the line `boom` and then
raises `UnicodeDecodeError`, and whose second decode attempt succeeds on
the same content. -/
def fileDup : FileModel :=
  ⟨[⟨["boom\nxx"], false⟩, ⟨["boom\nxx"], true⟩], false⟩

/-- C1: the combined pattern (case-insensitive keyword `boom`) matches the
line `BOOM`, but the fast-reject pre-filter — which the code performs as a
case-sensitive `sub in line` test, not the case-insensitive test the claim
describes — rejects the line, so `process_line` drops a line the matcher
matches. -/
theorem c1_fast_reject_drops_match :
    (searchFrom [kwBoom] "BOOM".data 0).isSome = true ∧
    (([kwBoom].map fun kw => kw.raw).any fun sub => containsSub sub.data "BOOM".data) = false ∧
    process_line [kwBoom] "BOOM" [] = [] := by
  decide

/-- C5: reading `abc\ndef` in chunks of 4 puts the chunk boundary exactly
on the newline; `splitlines` then leaves `abc` in the buffer and the next
chunk is glued onto it, so the reader yields the single merged line
`abcdef` instead of the two lines whole-file splitting yields. -/
theorem c5_chunk_boundary_merges_lines :
    readLines 4 "abc\ndef" = ["abcdef"] ∧
    (pySplitlines "abc\ndef".data).map String.mk = ["abc", "def"] ∧
    readLines 4 "abc\ndef" ≠ (pySplitlines "abc\ndef".data).map String.mk := by
  decide

/-- C6: a decode attempt that fails after delivering the matching line
`boom` leaves its record in `out`; the retry under the next encoding
re-scans the file into the same list, so the single matching line yields
two identical records instead of the claimed zero-or-once contribution. -/
theorem c6_failed_attempt_duplicates_records :
    (scan_file [kwBoom] fileDup).map Prod.fst = ["boom", "boom"] ∧
    (scan_file [kwBoom] fileDup).length = 2 := by
  decide

/-- C4: Scenario A — for both task-completion orders of the two files, the
job produces exactly one artifact, windowed Jan 2 10:00:00 to 11:00:00 of
the current year (122400000000 and 126000000000 microseconds from Jan 1),
containing both lines with F1's `.000` line first, and no warnings. -/
theorem c4_scenario_a_single_window :
    okOf (runJob cfgA false [] [kwBoom] [fileA1, fileA2]) =
      okOf (runJob cfgA false [] [kwBoom] [fileA2, fileA1]) ∧
    (okOf (runJob cfgA false [] [kwBoom] [fileA1, fileA2])).map (fun r =>
        (r.outputs.map fun a => (a.segStart, a.segEnd, a.lines.map Prod.fst), r.events)) =
      some ([(122400000000, 126000000000,
              ["01-02 10:15:00.000", "01-02 10:15:00.001"])], []) := by
  decide

/-- C3 counterexample: with `max_results = 1` and two matching records,
exactly one record is written, but the job emits two truncation warnings —
one when truncation is detected in the loop (source line 338) and one in
the post-loop summary (source line 377) — not the single warning the claim
states. -/
theorem c3_two_truncation_warnings :
    (okOf (runScan cfgB false [] [rP, ("01-02 10:15:00.001", "B")])).map writtenCount =
      some 1 ∧
    (okOf (runScan cfgB false [] [rP, ("01-02 10:15:00.001", "B")])).map truncWarnCount =
      some 2 ∧
    (okOf (runScan cfgB false [] [rP, ("01-02 10:15:00.001", "B")])).map truncWarnCount ≠
      some 1 := by
  decide

/-- C3 amended: Scenario B in full — one record written, the open segment
still finalized normally into its 10:00-11:00 artifact, no further record
written, and exactly two truncation warnings (in-loop and final summary). -/
theorem c3_amended_scenario_b :
    okOf (runScan cfgB false [] [rP, ("01-02 10:15:00.001", "B")]) =
      some ⟨[⟨122400000000, 126000000000, [rP]⟩],
            [Event.warnTruncate, Event.warnTruncateFinal]⟩ := by
  decide

/-- C2 counterexample: two records with equal timestamps collected in the
two possible task-completion orders — the stable sort keeps each collection
order on the tie, so the two runs produce artifacts with the records in
different orders, not byte-identical output. -/
theorem c2_tie_order_depends_on_completion :
    (okOf (runScan cfgA false [] [rX, rY])).map (fun r => r.outputs.map fun a => a.lines) =
      some [[rX, rY]] ∧
    (okOf (runScan cfgA false [] [rY, rX])).map (fun r => r.outputs.map fun a => a.lines) =
      some [[rY, rX]] ∧
    (okOf (runScan cfgA false [] [rX, rY])).map (fun r => r.outputs.map fun a => a.lines) ≠
      (okOf (runScan cfgA false [] [rY, rX])).map (fun r => r.outputs.map fun a => a.lines) := by
  decide

/-- C7 counterexample: when writing out the first artifact raises, the
exception propagates out of `close_temp_file` to the outer handler — the
job aborts with an error, the artifact list is never returned and the
remaining record is never processed, instead of only that artifact being
dropped. -/
theorem c7_write_failure_aborts_job :
    okOf (runScan cfgA false [⟨true, true⟩] [rP, rQ]) = none := by
  decide

/-- C9 counterexample: with keyword `ab` the line `abab` produces two
adjacent match spans (0,2) and (2,4); the spec-modelled merge would fuse
them into the single region (0,4), but `highlight_line` renders them as two
separate highlighted regions, each with its own annotation span between. -/
theorem c9_adjacent_spans_not_merged :
    (finditerSpans [kwAb] "abab".data).map (fun m => (m.1, m.2.2)) = [(0, 2), (2, 4)] ∧
    mergeRegions [(0, 2), (2, 4)] = [(0, 4)] ∧
    ([((0 : Nat), (2 : Nat)), (2, 4)] ≠ [(0, 4)]) ∧
    highlight_line "abab" [kwAb] = spanFor kwAb "ab" ++ spanFor kwAb "ab" := by
  decide

/-- Opening a segment touches only the `seg` field. -/
theorem openSeg_env (cfg : ScanConfig) (t : Nat) (st : AggSt) :
    (openSeg cfg t st).env = st.env := by
  unfold openSeg
  split <;> rfl

/-- Opening a segment leaves the artifact list unchanged. -/
theorem openSeg_outputs (cfg : ScanConfig) (t : Nat) (st : AggSt) :
    (openSeg cfg t st).outputs = st.outputs := by
  unfold openSeg
  split <;> rfl

/-- The segment after `openSeg` is the old one or a fresh empty window
anchored at the top of the record's hour. -/
theorem openSeg_seg (cfg : ScanConfig) (t : Nat) (st : AggSt) :
    (openSeg cfg t st).seg = st.seg ∨
      (openSeg cfg t st).seg =
        some (truncHour t, truncHour t + cfg.time_range_hours * hourMicro, []) := by
  unfold openSeg
  split
  · exact Or.inr rfl
  · exact Or.inl rfl

/-- The guarded write touches only the `seg` field. -/
theorem writeStep_env (cfg : ScanConfig) (ts hl : String) (st : AggSt) :
    (writeStep cfg ts hl st).env = st.env := by
  unfold writeStep
  split <;> rfl

/-- The guarded write leaves the artifact list unchanged. -/
theorem writeStep_outputs (cfg : ScanConfig) (ts hl : String) (st : AggSt) :
    (writeStep cfg ts hl st).outputs = st.outputs := by
  unfold writeStep
  split <;> rfl

/-- Write failures only come from the close environment: every close whose
behavior says the final write succeeds returns `Except.ok`. -/
theorem close_temp_file_ok (b : CloseB) (hb : b.writeRaises = false) (s e : Nat)
    (buf : List (String × String)) :
    ∃ r, close_temp_file b s e buf = Except.ok r := by
  unfold close_temp_file
  rw [hb]
  by_cases ht : b.tempExists = true
  · simp [ht]
  · simp [ht]

/-- Every close behavior of a write-failure-free environment. -/
def envOk (env : List CloseB) : Prop :=
  ∀ b ∈ env, b.writeRaises = false

/-- The behavior `popEnv` yields from a write-failure-free environment is
write-failure-free (the default behavior past the end always is). -/
theorem popEnv_fst (env : List CloseB) (h : envOk env) :
    (popEnv env).1.writeRaises = false := by
  cases env with
  | nil => rfl
  | cons b rest => exact h b (List.mem_cons_self _ _)

/-- Popping preserves write-failure-freedom of the remaining environment. -/
theorem popEnv_snd (env : List CloseB) (h : envOk env) :
    envOk (popEnv env).2 := by
  cases env with
  | nil => intro c hc; cases hc
  | cons b rest => intro c hc; exact h c (List.mem_cons_of_mem _ hc)

/-- With a write-failure-free environment the segment-boundary block never
raises, and the environment it leaves behind is still write-failure-free. -/
theorem segBoundary_ok (cfg : ScanConfig) (t : Nat) (st : AggSt) (h : envOk st.env) :
    ∃ st' brk, segBoundary cfg t st = Except.ok (st', brk) ∧ envOk st'.env := by
  unfold segBoundary
  split
  · exact ⟨_, _, rfl, by rw [openSeg_env]; exact h⟩
  · rename_i s0 e0 buf hseg
    by_cases hlt : t < e0
    · rw [if_pos hlt]
      exact ⟨_, _, rfl, h⟩
    · rw [if_neg hlt]
      obtain ⟨r, hr⟩ := close_temp_file_ok (popEnv st.env).1 (popEnv_fst st.env h) s0 e0 buf
      split
      · rename_i e' heq
        rw [heq] at hr
        simp at hr
      · refine ⟨_, _, rfl, ?_⟩
        rw [openSeg_env]
        exact popEnv_snd st.env h
      · rename_i a heq
        by_cases hcap : cfg.max_output_files ≤ (st.outputs ++ [a]).length
        · rw [if_pos hcap]
          exact ⟨_, _, rfl, popEnv_snd st.env h⟩
        · rw [if_neg hcap]
          refine ⟨_, _, rfl, ?_⟩
          rw [openSeg_env]
          exact popEnv_snd st.env h

/-- With a write-failure-free environment the record loop never raises. -/
theorem aggLoop_ok (cfg : ScanConfig) (leap : Bool) (recs : List (String × String)) :
    ∀ st : AggSt, envOk st.env →
      ∃ st', aggLoop cfg leap recs st = Except.ok st' ∧ envOk st'.env := by
  induction recs with
  | nil => exact fun st h => ⟨st, rfl, h⟩
  | cons r rest ih =>
    obtain ⟨ts, hl⟩ := r
    intro st h
    simp only [aggLoop]
    split
    · exact ⟨_, rfl, h⟩
    · split
      · exact ih st h
      · rename_i t hts
        obtain ⟨st', brk, hsb, henv'⟩ := segBoundary_ok cfg t st h
        rw [hsb]
        cases brk with
        | true => exact ⟨st', rfl, henv'⟩
        | false =>
          have henv'' : envOk (writeStep cfg ts hl st').env := by
            rw [writeStep_env]
            exact henv'
          exact ih _ henv''

/-- With a write-failure-free environment the epilogue never raises. -/
theorem finishRun_ok (st : AggSt) (h : envOk st.env) :
    ∃ res, finishRun st = Except.ok res := by
  unfold finishRun
  split
  · exact ⟨_, rfl⟩
  · rename_i s e buf hseg
    obtain ⟨r, hr⟩ := close_temp_file_ok (popEnv st.env).1 (popEnv_fst st.env h) s e buf
    rw [hr]
    cases r with
    | none => exact ⟨_, rfl⟩
    | some a => exact ⟨_, rfl⟩

/-- With a write-failure-free environment the whole aggregation phase
completes (no abort through the outer handler). -/
theorem runScan_ok (cfg : ScanConfig) (leap : Bool) (env : List CloseB)
    (recs : List (String × String)) (h : envOk env) :
    ∃ res, runScan cfg leap env recs = Except.ok res := by
  unfold runScan
  obtain ⟨st', hst', henv'⟩ :=
    aggLoop_ok cfg leap (List.insertionSort (recLE leap) recs) (initSt env) h
  rw [hst']
  exact finishRun_ok st' henv'

/-- C7 amended: an exception while writing a final artifact aborts the job
(see the counterexample), but in its absence the job always completes —
and a close whose temporary file is missing only drops that artifact: in
the concrete two-segment run the first artifact is dropped while the
second record is still processed and finalized into its own window. -/
theorem c7_amended_no_abort_without_write_exception :
    (∀ (cfg : ScanConfig) (leap : Bool) (env : List CloseB) (recs : List (String × String)),
        envOk env → ∃ res, runScan cfg leap env recs = Except.ok res) ∧
    okOf (runScan cfgA false [⟨false, false⟩] [rP, rQ]) =
      some ⟨[⟨129600000000, 133200000000, [rQ]⟩], []⟩ := by
  constructor
  · exact fun cfg leap env recs h => runScan_ok cfg leap env recs h
  · decide

/-- Witness for the amended C7 theorem at a concrete input. -/
theorem c7_amended_witness : ∃ res, runScan cfgA false [] [rP, rQ] = Except.ok res :=
  c7_amended_no_abort_without_write_exception.1 cfgA false [] [rP, rQ]
    (fun b hb => absurd hb (List.not_mem_nil b))

/-- With pairwise-distinct sort keys the stable sort's output depends only
on the multiset of collected records, not on their collection order. -/
theorem insertionSort_eq_of_perm (leap : Bool) (l1 l2 : List (String × String))
    (hp : l1.Perm l2)
    (hk : l1.Pairwise fun a b => rkey leap a ≠ rkey leap b) :
    List.insertionSort (recLE leap) l1 = List.insertionSort (recLE leap) l2 := by
  haveI : IsTotal (String × String) (recLE leap) := ⟨fun a b => Nat.le_total _ _⟩
  haveI : IsTrans (String × String) (recLE leap) := ⟨fun a b c h1 h2 => Nat.le_trans h1 h2⟩
  have hs1 := List.sorted_insertionSort (recLE leap) l1
  have hs2 := List.sorted_insertionSort (recLE leap) l2
  have hperm : (List.insertionSort (recLE leap) l1).Perm (List.insertionSort (recLE leap) l2) :=
    (List.perm_insertionSort _ l1).trans (hp.trans (List.perm_insertionSort _ l2).symm)
  have hk1 : (List.insertionSort (recLE leap) l1).Pairwise
      (fun a b => rkey leap a ≠ rkey leap b) :=
    ((List.perm_insertionSort (recLE leap) l1).pairwise_iff fun h => Ne.symm h).mpr hk
  have hk2 : (List.insertionSort (recLE leap) l2).Pairwise
      (fun a b => rkey leap a ≠ rkey leap b) :=
    ((List.perm_insertionSort (recLE leap) l2).pairwise_iff fun h => Ne.symm h).mpr
      ((hp.pairwise_iff fun h => Ne.symm h).mp hk)
  have hstr1 : (List.insertionSort (recLE leap) l1).Pairwise
      (fun a b => rkey leap a < rkey leap b) :=
    (hs1.and hk1).imp fun h => Nat.lt_of_le_of_ne h.1 h.2
  have hstr2 : (List.insertionSort (recLE leap) l2).Pairwise
      (fun a b => rkey leap a < rkey leap b) :=
    (hs2.and hk2).imp fun h => Nat.lt_of_le_of_ne h.1 h.2
  haveI : IsAntisymm (String × String) (fun a b => rkey leap a < rkey leap b) :=
    ⟨fun a b h1 h2 => absurd h1 (Nat.lt_asymm h2)⟩
  exact List.eq_of_perm_of_sorted hperm hstr1 hstr2

/-- C2 amended: aggregation is deterministic across collection orders
whenever no two collected records share a sort key (equal parsed
timestamps are exactly where the stable sort lets the arbitrary completion
order leak into the output, see the counterexample). -/
theorem c2_amended_deterministic_distinct_keys (cfg : ScanConfig) (leap : Bool)
    (env : List CloseB) (l1 l2 : List (String × String)) (hp : l1.Perm l2)
    (hk : l1.Pairwise fun a b => rkey leap a ≠ rkey leap b) :
    runScan cfg leap env l1 = runScan cfg leap env l2 := by
  unfold runScan
  rw [insertionSort_eq_of_perm leap l1 l2 hp hk]

/-- Witness for the amended C2 theorem: the two completion orders of two
distinct-timestamp records aggregate identically. -/
theorem c2_amended_witness :
    runScan cfgA false [] [rP, rQ] = runScan cfgA false [] [rQ, rP] :=
  c2_amended_deterministic_distinct_keys cfgA false [] [rP, rQ] [rQ, rP]
    (List.Perm.swap rQ rP []) (by decide)

/-- Window truncation never moves a time forward. -/
theorem truncHour_le (t : Nat) : truncHour t ≤ t :=
  Nat.sub_le _ _

/-- A time lies inside the window anchored at the top of its hour whenever
the window spans at least one hour. -/
theorem lt_truncHour_add (t hrs : Nat) (hh : 1 ≤ hrs) :
    t < truncHour t + hrs * hourMicro := by
  have h1 : t % hourMicro < hourMicro := Nat.mod_lt _ (by norm_num [hourMicro])
  have h2 : truncHour t + t % hourMicro = t := Nat.sub_add_cancel (Nat.mod_le _ _)
  have h3 : hourMicro ≤ hrs * hourMicro := Nat.le_mul_of_pos_left _ hh
  omega

/-- A record written into a window: its timestamp parses, is at or past the
window start, and (when the window spans at least one hour) before the
window end. -/
def entryOk (cfg : ScanConfig) (leap : Bool) (s e : Nat) (p : String × String) : Prop :=
  ∃ u, parse_timestamp leap p.1 = some u ∧ s ≤ u ∧ (1 ≤ cfg.time_range_hours → u < e)

/-- Every buffered record of a window is inside it. -/
def bufOk (cfg : ScanConfig) (leap : Bool) (s e : Nat) (buf : List (String × String)) : Prop :=
  ∀ p ∈ buf, entryOk cfg leap s e p

/-- Every finalized artifact only contains records of its own window. -/
def outsOk (cfg : ScanConfig) (leap : Bool) (outs : List Artifact) : Prop :=
  ∀ a ∈ outs, bufOk cfg leap a.segStart a.segEnd a.lines

/-- The loop invariant: artifacts are window-consistent, and the open
segment is window-consistent with its start below every remaining record's
parsed timestamp. -/
def winInv (cfg : ScanConfig) (leap : Bool) (recs : List (String × String)) (st : AggSt) :
    Prop :=
  outsOk cfg leap st.outputs ∧
  ∀ s e buf, st.seg = some (s, e, buf) →
    bufOk cfg leap s e buf ∧
    ∀ r ∈ recs, ∀ u, parse_timestamp leap r.1 = some u → s ≤ u

/-- Appending a window-consistent artifact preserves `outsOk`. -/
theorem outsOk_append (cfg : ScanConfig) (leap : Bool) (outs : List Artifact)
    (s e : Nat) (buf : List (String × String))
    (ho : outsOk cfg leap outs) (hb : bufOk cfg leap s e buf) :
    outsOk cfg leap (outs ++ [⟨s, e, buf⟩]) := by
  intro a ha
  rcases List.mem_append.mp ha with h | h
  · exact ho a h
  · rw [List.mem_singleton.mp h]
    exact hb

/-- What the segment-boundary block guarantees for the current record time
`t`: artifacts stay window-consistent, and any segment left open contains
only its own window's records, starts at or below `t`, and (for an
hour-or-wider window) ends beyond `t`. -/
theorem segBoundary_win (cfg : ScanConfig) (leap : Bool) (t : Nat) (st st' : AggSt)
    (brk : Bool)
    (ho : outsOk cfg leap st.outputs)
    (hsg : ∀ s e buf, st.seg = some (s, e, buf) → bufOk cfg leap s e buf ∧ s ≤ t)
    (h : segBoundary cfg t st = Except.ok (st', brk)) :
    outsOk cfg leap st'.outputs ∧
    ∀ s e buf, st'.seg = some (s, e, buf) →
      bufOk cfg leap s e buf ∧ s ≤ t ∧ (1 ≤ cfg.time_range_hours → t < e) := by
  unfold segBoundary at h
  revert h
  split
  · rename_i hseg
    intro h
    injection h with h1
    obtain ⟨rfl, rfl⟩ : openSeg cfg t st = st' ∧ false = brk :=
      ⟨congrArg Prod.fst h1, congrArg Prod.snd h1⟩
    refine ⟨by rwa [openSeg_outputs], ?_⟩
    intro s e buf hs
    rcases openSeg_seg cfg t st with h2 | h2
    · rw [h2, hseg] at hs
      cases hs
    · rw [h2] at hs
      injection hs with h3
      obtain ⟨rfl, rfl, rfl⟩ : truncHour t = s ∧
          truncHour t + cfg.time_range_hours * hourMicro = e ∧ ([] : List (String × String)) = buf :=
        ⟨congrArg (fun q => q.1) h3, congrArg (fun q => q.2.1) h3, congrArg (fun q => q.2.2) h3⟩
      refine ⟨fun p hp => absurd hp (List.not_mem_nil p), truncHour_le t, fun hh => ?_⟩
      exact lt_truncHour_add t _ hh
  · rename_i s0 e0 buf0 hseg
    split
    · rename_i hlt
      intro h
      injection h with h1
      obtain ⟨rfl, rfl⟩ : st = st' ∧ false = brk :=
        ⟨congrArg Prod.fst h1, congrArg Prod.snd h1⟩
      refine ⟨ho, ?_⟩
      intro s e buf hs
      rw [hseg] at hs
      injection hs with h3
      obtain ⟨rfl, rfl, rfl⟩ : s0 = s ∧ e0 = e ∧ buf0 = buf :=
        ⟨congrArg (fun q => q.1) h3, congrArg (fun q => q.2.1) h3, congrArg (fun q => q.2.2) h3⟩
      exact ⟨(hsg s0 e0 buf0 hseg).1, (hsg s0 e0 buf0 hseg).2, fun _ => hlt⟩
    · rename_i hlt
      split
      · intro h
        cases h
      · intro h
        injection h with h1
        obtain ⟨rfl, rfl⟩ : _ = st' ∧ false = brk :=
          ⟨congrArg Prod.fst h1, congrArg Prod.snd h1⟩
        refine ⟨by rwa [openSeg_outputs], ?_⟩
        intro s e buf hs
        rcases openSeg_seg cfg t _ with h2 | h2
        · rw [h2] at hs
          cases hs
        · rw [h2] at hs
          injection hs with h3
          obtain ⟨rfl, rfl, rfl⟩ : truncHour t = s ∧
              truncHour t + cfg.time_range_hours * hourMicro = e ∧
              ([] : List (String × String)) = buf :=
            ⟨congrArg (fun q => q.1) h3, congrArg (fun q => q.2.1) h3,
              congrArg (fun q => q.2.2) h3⟩
          exact ⟨fun p hp => absurd hp (List.not_mem_nil p), truncHour_le t,
            fun hh => lt_truncHour_add t _ hh⟩
      · rename_i a hclose
        have ha : a = ⟨s0, e0, buf0⟩ := by
          unfold close_temp_file at hclose
          revert hclose
          split
          · split
            · intro hclose
              cases hclose
            · intro hclose
              injection hclose with h4
              injection h4 with h5
              exact h5.symm
          · intro hclose
            injection hclose with h4
            cases h4
        split
        · intro h
          injection h with h1
          obtain ⟨rfl, rfl⟩ : _ = st' ∧ true = brk :=
            ⟨congrArg Prod.fst h1, congrArg Prod.snd h1⟩
          refine ⟨?_, ?_⟩
          · rw [ha]
            exact outsOk_append cfg leap st.outputs s0 e0 buf0 ho (hsg s0 e0 buf0 hseg).1
          · intro s e buf hs
            cases hs
        · intro h
          injection h with h1
          obtain ⟨rfl, rfl⟩ : _ = st' ∧ false = brk :=
            ⟨congrArg Prod.fst h1, congrArg Prod.snd h1⟩
          have ho' : outsOk cfg leap (st.outputs ++ [a]) := by
            rw [ha]
            exact outsOk_append cfg leap st.outputs s0 e0 buf0 ho (hsg s0 e0 buf0 hseg).1
          refine ⟨by rwa [openSeg_outputs], ?_⟩
          intro s e buf hs
          rcases openSeg_seg cfg t _ with h2 | h2
          · rw [h2] at hs
            cases hs
          · rw [h2] at hs
            injection hs with h3
            obtain ⟨rfl, rfl, rfl⟩ : truncHour t = s ∧
                truncHour t + cfg.time_range_hours * hourMicro = e ∧
                ([] : List (String × String)) = buf :=
              ⟨congrArg (fun q => q.1) h3, congrArg (fun q => q.2.1) h3,
                congrArg (fun q => q.2.2) h3⟩
            exact ⟨fun p hp => absurd hp (List.not_mem_nil p), truncHour_le t,
              fun hh => lt_truncHour_add t _ hh⟩

/-- The guarded write preserves window consistency of the open segment,
because the record it appends carries the very time `t` the segment was
just checked (or anchored) against. -/
theorem writeStep_win (cfg : ScanConfig) (leap : Bool) (ts hl : String) (t : Nat)
    (st : AggSt) (hts : parse_timestamp leap ts = some t)
    (hsg : ∀ s e buf, st.seg = some (s, e, buf) →
      bufOk cfg leap s e buf ∧ s ≤ t ∧ (1 ≤ cfg.time_range_hours → t < e)) :
    ∀ s e buf, (writeStep cfg ts hl st).seg = some (s, e, buf) →
      bufOk cfg leap s e buf ∧ s ≤ t ∧ (1 ≤ cfg.time_range_hours → t < e) := by
  intro s e buf hs
  unfold writeStep at hs
  revert hs
  split
  · cases hseg : st.seg with
    | none =>
      intro hs
      simp at hs
    | some triple =>
      obtain ⟨s1, e1, buf1⟩ := triple
      intro hs
      injection hs with h3
      obtain ⟨rfl, rfl, rfl⟩ : s1 = s ∧ e1 = e ∧ buf1 ++ [(ts, hl)] = buf :=
        ⟨congrArg (fun q => q.1) h3, congrArg (fun q => q.2.1) h3, congrArg (fun q => q.2.2) h3⟩
      obtain ⟨hb, hle, hlt⟩ := hsg s1 e1 buf1 hseg
      refine ⟨?_, hle, hlt⟩
      intro p hp
      rcases List.mem_append.mp hp with hp | hp
      · exact hb p hp
      · rw [List.mem_singleton.mp hp]
        exact ⟨t, hts, hle, hlt⟩
  · intro hs
    obtain ⟨hb, hle, hlt⟩ := hsg s e buf hs
    exact ⟨hb, hle, hlt⟩

/-- The record loop preserves the window invariant when the remaining
records are sorted by the sort key. -/
theorem aggLoop_win (cfg : ScanConfig) (leap : Bool) (recs : List (String × String)) :
    ∀ st st' : AggSt,
      recs.Pairwise (recLE leap) →
      winInv cfg leap recs st →
      aggLoop cfg leap recs st = Except.ok st' →
      winInv cfg leap [] st' := by
  induction recs with
  | nil =>
    intro st st' _ hw h
    injection h with h1
    rw [← h1]
    exact ⟨hw.1, fun s e buf hs => ⟨(hw.2 s e buf hs).1, fun r hr => absurd hr (List.not_mem_nil r)⟩⟩
  | cons r0 rest ih =>
    obtain ⟨ts, hl⟩ := r0
    intro st st' hp hw h
    have hpHead : ∀ r ∈ rest, recLE leap (ts, hl) r := (List.pairwise_cons.mp hp).1
    have hpTail : rest.Pairwise (recLE leap) := (List.pairwise_cons.mp hp).2
    rw [aggLoop] at h
    revert h
    split
    · intro h
      injection h with h1
      rw [← h1]
      refine ⟨hw.1, fun s e buf hs => ⟨(hw.2 s e buf hs).1, ?_⟩⟩
      intro r hr
      exact absurd hr (List.not_mem_nil r)
    · split
      · intro h
        refine ih st st' hpTail ⟨hw.1, fun s e buf hs => ⟨(hw.2 s e buf hs).1, ?_⟩⟩ h
        intro r hr
        exact (hw.2 s e buf hs).2 r (List.mem_cons_of_mem _ hr)
      · rename_i t hts
        intro h
        revert h
        cases hsb : segBoundary cfg t st with
        | error e0 =>
          intro h
          cases h
        | ok pr =>
          obtain ⟨stB, brk⟩ := pr
          have hsg0 : ∀ s e buf, st.seg = some (s, e, buf) → bufOk cfg leap s e buf ∧ s ≤ t :=
            fun s e buf hs =>
              ⟨(hw.2 s e buf hs).1,
                (hw.2 s e buf hs).2 (ts, hl) (List.mem_cons_self _ _) t hts⟩
          obtain ⟨hoB, hsgB⟩ := segBoundary_win cfg leap t st stB brk hw.1 hsg0 hsb
          cases brk with
          | true =>
            intro h
            injection h with h1
            rw [← h1]
            refine ⟨hoB, fun s e buf hs => ⟨(hsgB s e buf hs).1, ?_⟩⟩
            intro r hr
            exact absurd hr (List.not_mem_nil r)
          | false =>
            intro h
            have hsgW := writeStep_win cfg leap ts hl t stB hts hsgB
            refine ih _ st' hpTail ⟨?_, ?_⟩ h
            · show outsOk cfg leap (writeStep cfg ts hl stB).outputs
              rw [writeStep_outputs]
              exact hoB
            · intro s e buf hs
              have hs' : (writeStep cfg ts hl stB).seg = some (s, e, buf) := hs
              obtain ⟨hb, hle, _⟩ := hsgW s e buf hs'
              refine ⟨hb, ?_⟩
              intro r hr u hu
              have hkey : rkey leap (ts, hl) ≤ rkey leap r := hpHead r hr
              have : t + 1 ≤ u + 1 := by
                unfold rkey at hkey
                rw [show ((ts, hl) : String × String).1 = ts from rfl, hts, hu] at hkey
                exact hkey
              exact Nat.le_trans hle (Nat.le_of_succ_le_succ this)

/-- An artifact produced by a successful close carries exactly the window
and buffer it was closed with. -/
theorem close_temp_file_some (b : CloseB) (s e : Nat) (buf : List (String × String))
    (a : Artifact) (h : close_temp_file b s e buf = Except.ok (some a)) :
    a = ⟨s, e, buf⟩ := by
  unfold close_temp_file at h
  revert h
  split
  · split
    · intro h
      cases h
    · intro h
      injection h with h4
      injection h4 with h5
      exact h5.symm
  · intro h
    injection h with h4
    cases h4

/-- The epilogue preserves window consistency of the artifact list: the
final close only adds the open segment's own window. -/
theorem finishRun_win (cfg : ScanConfig) (leap : Bool) (st : AggSt) (res : RunResult)
    (ho : outsOk cfg leap st.outputs)
    (hs : ∀ s e buf, st.seg = some (s, e, buf) → bufOk cfg leap s e buf)
    (h : finishRun st = Except.ok res) :
    outsOk cfg leap res.outputs := by
  unfold finishRun at h
  revert h
  split
  · intro h
    injection h with h1
    rw [← h1]
    exact ho
  · rename_i s e buf hseg
    split
    · intro h
      cases h
    · intro h
      injection h with h1
      rw [← h1]
      exact ho
    · rename_i a hclose
      have ha := close_temp_file_some (popEnv st.env).1 s e buf a hclose
      subst ha
      intro h
      injection h with h1
      rw [← h1]
      exact outsOk_append cfg leap st.outputs s e buf ho (hs s e buf hseg)

/-- C10: whenever a run completes with windows at least one hour wide,
every record written into any finalized artifact has a parsed timestamp
inside that artifact's half-open window. -/
theorem c10_window_containment (cfg : ScanConfig) (leap : Bool) (env : List CloseB)
    (recs : List (String × String)) (res : RunResult)
    (hh : 1 ≤ cfg.time_range_hours)
    (hrun : runScan cfg leap env recs = Except.ok res) :
    ∀ a ∈ res.outputs, ∀ p ∈ a.lines,
      ∃ u, parse_timestamp leap p.1 = some u ∧ a.segStart ≤ u ∧ u < a.segEnd := by
  unfold runScan at hrun
  revert hrun
  cases hagg : aggLoop cfg leap (List.insertionSort (recLE leap) recs) (initSt env) with
  | error e =>
    intro hrun
    cases hrun
  | ok st =>
    intro hrun
    haveI : IsTotal (String × String) (recLE leap) := ⟨fun a b => Nat.le_total _ _⟩
    haveI : IsTrans (String × String) (recLE leap) := ⟨fun a b c h1 h2 => Nat.le_trans h1 h2⟩
    have hsort : (List.insertionSort (recLE leap) recs).Pairwise (recLE leap) :=
      List.sorted_insertionSort (recLE leap) recs
    have hw0 : winInv cfg leap (List.insertionSort (recLE leap) recs) (initSt env) := by
      constructor
      · intro a ha
        cases ha
      · intro s e buf hs
        cases hs
    have hw := aggLoop_win cfg leap _ (initSt env) st hsort hw0 hagg
    have houts :=
      finishRun_win cfg leap st res hw.1 (fun s e buf hs => (hw.2 s e buf hs).1) hrun
    intro a ha p hp
    obtain ⟨u, hu, hle, hlt⟩ := houts a ha p hp
    exact ⟨u, hu, hle, hlt hh⟩

/-- The completed two-segment run used to witness the window-containment
theorem. -/
def resC10 : RunResult :=
  ⟨[⟨122400000000, 126000000000, [rP]⟩, ⟨129600000000, 133200000000, [rQ]⟩], []⟩

/-- Witness for the C10 theorem at a concrete run. -/
theorem c10_witness :
    ∃ u, parse_timestamp false rP.1 = some u ∧
      (Artifact.mk 122400000000 126000000000 [rP]).segStart ≤ u ∧
      u < (Artifact.mk 122400000000 126000000000 [rP]).segEnd :=
  c10_window_containment cfgA false [] [rP, rQ] resC10 (by decide) (by rfl)
    ⟨122400000000, 126000000000, [rP]⟩ (by decide) rP (by decide)

/-- C8: the parser returns the sentinel exactly when the line is shorter
than 18 characters or its 18-character prefix fails the format; only the
first 18 characters ever matter; and no record whose timestamp is the
sentinel is ever written into any artifact of a completed run. -/
theorem c8_sentinel_characterization :
    (∀ (leap : Bool) (line : String),
        parse_timestamp leap line = none ↔
          line.length < 18 ∨ strptime18 leap (line.data.take 18) = none) ∧
    (∀ (leap : Bool) (l1 l2 : String), 18 ≤ l1.length → 18 ≤ l2.length →
        l1.data.take 18 = l2.data.take 18 →
        parse_timestamp leap l1 = parse_timestamp leap l2) ∧
    (∀ (cfg : ScanConfig) (leap : Bool) (env : List CloseB)
        (recs : List (String × String)) (res : RunResult),
        runScan cfg leap env recs = Except.ok res →
        ∀ a ∈ res.outputs, ∀ p ∈ a.lines, parse_timestamp leap p.1 ≠ none) := by
  refine ⟨?_, ?_, ?_⟩
  · intro leap line
    unfold parse_timestamp
    by_cases h : 18 ≤ line.length
    · rw [if_pos h]
      constructor
      · intro h1
        exact Or.inr h1
      · rintro (h1 | h1)
        · omega
        · exact h1
    · rw [if_neg h]
      constructor
      · intro _
        exact Or.inl (by omega)
      · intro _
        rfl
  · intro leap l1 l2 h1 h2 he
    unfold parse_timestamp
    rw [if_pos h1, if_pos h2, he]
  · intro cfg leap env recs res hrun
    unfold runScan at hrun
    revert hrun
    cases hagg : aggLoop cfg leap (List.insertionSort (recLE leap) recs) (initSt env) with
    | error e =>
      intro hrun
      cases hrun
    | ok st =>
      intro hrun
      haveI : IsTotal (String × String) (recLE leap) := ⟨fun a b => Nat.le_total _ _⟩
      haveI : IsTrans (String × String) (recLE leap) := ⟨fun a b c h1 h2 => Nat.le_trans h1 h2⟩
      have hsort : (List.insertionSort (recLE leap) recs).Pairwise (recLE leap) :=
        List.sorted_insertionSort (recLE leap) recs
      have hw0 : winInv cfg leap (List.insertionSort (recLE leap) recs) (initSt env) := by
        constructor
        · intro a ha
          cases ha
        · intro s e buf hs
          cases hs
      have hw := aggLoop_win cfg leap _ (initSt env) st hsort hw0 hagg
      have houts :=
        finishRun_win cfg leap st res hw.1 (fun s e buf hs => (hw.2 s e buf hs).1) hrun
      intro a ha p hp
      obtain ⟨u, hu, _, _⟩ := houts a ha p hp
      rw [hu]
      exact Option.some_ne_none u

/-- Witness for the C8 theorem at a concrete input. -/
theorem c8_witness : parse_timestamp false "short" = none :=
  (c8_sentinel_characterization.1 false "short").mpr (Or.inl (by decide))

/-- A group match at position `i` ends at or after `i`. -/
theorem firstMatchAt_le (kws : List Keyword) (s : List Char) (i k e : Nat)
    (h : firstMatchAt kws s i = some (k, e)) : i ≤ e := by
  unfold firstMatchAt at h
  rw [List.findSome?_eq_some_iff] at h
  obtain ⟨l1, a, l2, _, ha, _⟩ := h
  rw [Option.map_eq_some'] at ha
  obtain ⟨lv, _, heq⟩ := ha
  have h2 : i + lv = e := congrArg Prod.snd heq
  omega

/-- A search from position `i` yields a span starting at or after `i` and
ending at or after its start. -/
theorem searchFrom_bounds (kws : List Keyword) (s : List Char) (i p k e : Nat)
    (h : searchFrom kws s i = some (p, k, e)) : i ≤ p ∧ p ≤ e := by
  unfold searchFrom at h
  rw [List.findSome?_eq_some_iff] at h
  obtain ⟨l1, a, l2, hl, ha, _⟩ := h
  rw [Option.map_eq_some'] at ha
  obtain ⟨q, hm, heq⟩ := ha
  have hp : a = p := congrArg (fun z => z.1) heq
  have hke : q.2 = e := congrArg (fun z => z.2.2) heq
  have hmem : a ∈ List.range' i (s.length + 1 - i) := by
    rw [hl]
    exact List.mem_append.mpr (Or.inr (List.mem_cons_self _ _))
  obtain ⟨j, _, haj⟩ := List.mem_range'.mp hmem
  have hpe : p ≤ e := by
    obtain ⟨q1, q2⟩ := q
    have := firstMatchAt_le kws s a q1 q2 hm
    omega
  omega

/-- Every span `finditerAux` emits from position `i` starts at or after `i`
and has its end at or past its start. -/
theorem finditerAux_mem_bounds (kws : List Keyword) (s : List Char) :
    ∀ (fuel i : Nat), ∀ m ∈ finditerAux kws s fuel i, i ≤ m.1 ∧ m.1 ≤ m.2.2 := by
  intro fuel
  induction fuel with
  | zero =>
    intro i m hm
    cases hm
  | succ fuel ih =>
    intro i m hm
    rw [finditerAux] at hm
    revert hm
    cases hsf : searchFrom kws s i with
    | none =>
      intro hm
      cases hm
    | some triple =>
      obtain ⟨p, k, e⟩ := triple
      intro hm
      obtain ⟨hip, hpe⟩ := searchFrom_bounds kws s i p k e hsf
      rcases List.mem_cons.mp hm with hm | hm
      · rw [hm]
        exact ⟨hip, hpe⟩
      · have := ih (max e (p + 1)) m hm
        constructor
        · omega
        · exact this.2

/-- The spans `finditerAux` emits are pairwise disjoint in order: each span
ends at or before the next begins. -/
theorem finditerAux_pairwise (kws : List Keyword) (s : List Char) :
    ∀ (fuel i : Nat), (finditerAux kws s fuel i).Pairwise fun a b => a.2.2 ≤ b.1 := by
  intro fuel
  induction fuel with
  | zero =>
    intro i
    exact List.Pairwise.nil
  | succ fuel ih =>
    intro i
    rw [finditerAux]
    cases hsf : searchFrom kws s i with
    | none => exact List.Pairwise.nil
    | some triple =>
      obtain ⟨p, k, e⟩ := triple
      refine List.pairwise_cons.mpr ⟨?_, ih (max e (p + 1))⟩
      intro m hm
      have := (finditerAux_mem_bounds kws s fuel (max e (p + 1)) m hm).1
      show e ≤ m.1
      omega

/-- C9 amended: the matcher's spans over any line are non-overlapping —
each span is well-formed and ends at or before the next span begins, so no
character lies in more than one highlighted region — but adjacent spans
stay separate regions (see the counterexample), each rendered with its own
keyword's color and annotation by `renderFrom`. -/
theorem c9_amended_disjoint_spans (kws : List Keyword) (s : List Char) :
    (∀ m ∈ finditerSpans kws s, m.1 ≤ m.2.2) ∧
    (finditerSpans kws s).Pairwise (fun a b => a.2.2 ≤ b.1) := by
  constructor
  · intro m hm
    exact (finditerAux_mem_bounds kws s (s.length + 1) 0 m hm).2
  · exact finditerAux_pairwise kws s (s.length + 1) 0
